import Mathlib

/-!
# Skeleton HTTP service: auth gate, readiness decision and placeholder handlers

A shallow embedding of the request handling code of the service template:

* `middleware/auth.go`   : `Auth`, `respondWithError`
* `handlers/users.go`    : `ListUsers`, `GetUser`, `CreateUser`, `UpdateUser`,
                           `DeleteUser`, `ProtectedEndpoint`, `respondWithError`
* `handlers/health.go`   : `ReadinessCheck`, `respondWithJSON`
* `models/user.go`       : `User`, `CreateUserInput`, `UpdateUserInput`

Modelling conventions.

* A Go `string` is a Lean `String` (a sequence of Unicode scalar values), so
  byte strings that are not valid UTF-8 are outside the model.
* A handler does not return a value in Go, it calls methods of its
  `http.ResponseWriter`.  Here a handler returns the list of those calls in
  program order (`Call`).  A middleware additionally may call
  `next.ServeHTTP(w, r)`; that call is recorded as `Call.ServeHTTP r` and
  `Use` plugs an actual handler into it.
* `encoding/json`, `net/http` and `chi` are libraries, not code of the
  repository.  `json.Marshal` is modelled by `json.Marshal` below for the
  payload shapes the handlers build; the request body decoder
  `json.NewDecoder(r.Body).Decode(&input)` is a parameter of the handlers that
  use it.
-/

set_option linter.unusedVariables false
set_option maxRecDepth 8000

namespace Skeleton

/-! ## Requests -/

/-- The Go type `contextKey` of `middleware/auth.go` (`type contextKey string`). -/
structure contextKey where
  name : String
deriving DecidableEq, Repr

/-- The constant `UserContextKey` of `middleware/auth.go`. -/
def UserContextKey : contextKey := ⟨"user"⟩

/-- A value stored in a request context: the Go value
`map[string]interface{}` whose entries are strings, as a list of entries. -/
abbrev ContextValue := List (String × String)

/-- A `context.Context` restricted to the values stored under keys of type
`contextKey`; the most recently attached value comes first. -/
abbrev Context := List (contextKey × ContextValue)

/-- The result of `context.WithValue(ctx, key, val)`. -/
def Context.WithValue (ctx : Context) (key : contextKey) (val : ContextValue) : Context :=
  (key, val) :: ctx

/-- The result of `ctx.Value(key)`: the innermost value attached under `key`. -/
def Context.Value (ctx : Context) (key : contextKey) : Option ContextValue :=
  match ctx with
  | [] => none
  | (k, v) :: rest => if k = key then some v else Context.Value rest key

/-- An `http.Header`: canonical header names with their values. -/
abbrev Header := List (String × List String)

/-- The result of `h.Get(key)`: the first value of `key`, or `""`. -/
def Header.Get (h : Header) (key : String) : String :=
  match h with
  | [] => ""
  | (k, vs) :: rest => if k = key then vs.headD "" else Header.Get rest key

/-- The parts of an `*http.Request` the handlers look at. -/
structure Request where
  Method : String
  Path : String
  Header : Skeleton.Header
  Body : String
  URLParams : List (String × String)
  Context : Skeleton.Context
deriving DecidableEq, Repr

/-- The result of `r.WithContext(ctx)`. -/
def Request.WithContext (r : Request) (ctx : Skeleton.Context) : Request :=
  { r with Context := ctx }

namespace chi

/-- The result of `chi.URLParam(r, key)`: the value of the last path
parameter named `key`, or `""` when there is none. -/
def URLParam (r : Request) (key : String) : String :=
  match r.URLParams.reverse.find? (fun kv => kv.1 = key) with
  | some kv => kv.2
  | none => ""

end chi

/-! ## Responses -/

/-- One call made by a handler on its response writer, or on the next
handler of the chain. -/
inductive Call where
  /-- The call `w.Header().Set(key, value)`. -/
  | HeaderSet (key value : String)
  /-- The call `w.WriteHeader(code)`. -/
  | WriteHeader (code : Nat)
  /-- The call `w.Write(data)`. -/
  | Write (data : String)
  /-- The call `next.ServeHTTP(w, r)`. -/
  | ServeHTTP (r : Request)
deriving DecidableEq, Repr

/-- An `http.Handler`: the calls it makes for a request. -/
abbrev Handler := Request → List Call

/-- A middleware with the next handler left open. -/
abbrev Middleware := Request → List Call

/-- Replace every `ServeHTTP r` by the calls of `next` on `r`. -/
def splice (next : Handler) : List Call → List Call
  | [] => []
  | Call.ServeHTTP r :: rest => next r ++ splice next rest
  | c :: rest => c :: splice next rest

/-- The handler `mw(next)`. -/
def Use (mw : Middleware) (next : Handler) : Handler :=
  fun r => splice next (mw r)

/-- How many times the next handler is called. -/
def nextCalls : List Call → Nat
  | [] => 0
  | Call.ServeHTTP _ :: rest => nextCalls rest + 1
  | _ :: rest => nextCalls rest

/-- The status codes passed to `WriteHeader`, in order. -/
def statusWrites : List Call → List Nat
  | [] => []
  | Call.WriteHeader code :: rest => code :: statusWrites rest
  | _ :: rest => statusWrites rest

/-- The bytes passed to `Write`, concatenated. -/
def bodyOf : List Call → String
  | [] => ""
  | Call.Write data :: rest => data ++ bodyOf rest
  | _ :: rest => bodyOf rest

/-- The status of the response as `net/http` sends it: that of the first
`WriteHeader`, or 200 when `Write` comes first or nothing is written. -/
def statusOf : List Call → Nat
  | [] => 200
  | Call.WriteHeader code :: _ => code
  | Call.Write _ :: _ => 200
  | _ :: rest => statusOf rest

namespace http

def StatusOK : Nat := 200
def StatusCreated : Nat := 201
def StatusNoContent : Nat := 204
def StatusBadRequest : Nat := 400
def StatusUnauthorized : Nat := 401
def StatusInternalServerError : Nat := 500
def StatusServiceUnavailable : Nat := 503

end http

/-! ## `strings.Split` -/

namespace strings

/-- The pieces of `s` between the occurrences of `sep`. -/
def splitChars (sep : Char) : List Char → List (List Char)
  | [] => [[]]
  | c :: cs =>
    if c = sep then [] :: splitChars sep cs
    else
      match splitChars sep cs with
      | [] => [[c]]
      | p :: ps => (c :: p) :: ps

/-- The result of `strings.Split(s, sep)` for a separator `sep` of one
character. -/
def Split (s : String) (sep : Char) : List String :=
  (splitChars sep s.data).map String.mk

end strings

/-! ## `middleware/auth.go` -/

namespace middleware

/-- The function `respondWithError` of `middleware/auth.go`. -/
def respondWithError (code : Nat) (message : String) : List Call :=
  [ Call.HeaderSet "Content-Type" "application/json",
    Call.WriteHeader code,
    Call.Write ("\x7b\"error\":\"" ++ message ++ "\"\x7d") ]

/-- The placeholder principal `Auth` attaches to the request context. -/
def examplePrincipal : ContextValue :=
  [("id", "example-user-id"), ("email", "user@example.com")]

/-- The handler body of `Auth(jwtSecret)(next)`. -/
def Auth (jwtSecret : String) : Middleware := fun r =>
  let authHeader := r.Header.Get "Authorization"
  if authHeader = "" then
    respondWithError http.StatusUnauthorized "Missing authorization header"
  else
    let parts := strings.Split authHeader ' '
    if parts.length ≠ 2 ∨ parts.getD 0 "" ≠ "Bearer" then
      respondWithError http.StatusUnauthorized "Invalid authorization header format"
    else
      let token := parts.getD 1 ""
      if token = "" then
        respondWithError http.StatusUnauthorized "Invalid token"
      else
        let ctx := r.Context.WithValue UserContextKey examplePrincipal
        [Call.ServeHTTP (r.WithContext ctx)]

end middleware

/-! ## `encoding/json`: marshalling -/

namespace json

/-- A Go value as `json.Marshal` sees it: a string, an `int`, a slice, or a
struct or map (its fields or entries in the order they are written). -/
inductive Value where
  | Str (s : String)
  | Num (n : Int)
  | Arr (elems : List Value)
  | Obj (fields : List (String × Value))

/-- The table `hex` of `encoding/json`. -/
def hex : List Char := "0123456789abcdef".data

/-- The entry `hex[n]`. -/
def hexDigit (n : Nat) : Char := hex.getD n '0'

/-- The table `htmlSafeSet`: the ASCII characters written as they are. -/
def htmlSafeSet (c : Char) : Bool :=
  decide (0x20 ≤ c.toNat ∧ c.toNat < 0x80 ∧
    c ≠ '"' ∧ c ≠ '&' ∧ c ≠ '<' ∧ c ≠ '>' ∧ c ≠ '\\')

/-- What `appendString` (with HTML escaping, as `json.Marshal` calls it)
writes for one character of a string, as of Go 1.22 (older releases write
`\u0008` and `\u000c` where this one writes `\b` and `\f`). -/
def appendChar (c : Char) : List Char :=
  if c.toNat < 0x80 then
    if htmlSafeSet c then [c]
    else if c = '\\' ∨ c = '"' then ['\\', c]
    else if c = '\x08' then ['\\', 'b']
    else if c = '\x0c' then ['\\', 'f']
    else if c = '\n' then ['\\', 'n']
    else if c = '\r' then ['\\', 'r']
    else if c = '\t' then ['\\', 't']
    else ['\\', 'u', '0', '0', hexDigit (c.toNat / 16), hexDigit (c.toNat % 16)]
  else if c = Char.ofNat 0x2028 ∨ c = Char.ofNat 0x2029 then
    ['\\', 'u', '2', '0', '2', hexDigit (c.toNat % 16)]
  else [c]

/-- The characters `appendString` writes between the two quotes. -/
def escape : List Char → List Char
  | [] => []
  | c :: cs => appendChar c ++ escape cs

/-- The JSON string literal for `s`. -/
def quote (s : String) : List Char :=
  '"' :: (escape s.data ++ ['"'])

mutual

/-- The JSON text of a value. -/
def encode : Value → List Char
  | Value.Str s => quote s
  | Value.Num n => (toString n).data
  | Value.Arr elems => '[' :: (encodeElems elems ++ [']'])
  | Value.Obj fields => '\x7b' :: (encodeFields fields ++ ['\x7d'])

/-- The elements of an array, separated by commas. -/
def encodeElems : List Value → List Char
  | [] => []
  | v :: rest => encode v ++ encodeMoreElems rest

/-- The elements after the first, each preceded by a comma. -/
def encodeMoreElems : List Value → List Char
  | [] => []
  | v :: rest => ',' :: (encode v ++ encodeMoreElems rest)

/-- The fields of an object, separated by commas. -/
def encodeFields : List (String × Value) → List Char
  | [] => []
  | (k, v) :: rest => quote k ++ ':' :: (encode v ++ encodeMoreFields rest)

/-- The fields after the first, each preceded by a comma. -/
def encodeMoreFields : List (String × Value) → List Char
  | [] => []
  | (k, v) :: rest => ',' :: (quote k ++ ':' :: (encode v ++ encodeMoreFields rest))

end

/-- The result of `json.Marshal(v)`.  None of the values the handlers build
makes `json.Marshal` fail, so the result is always `ok`. -/
def Marshal (v : Value) : Except String String :=
  Except.ok (String.mk (encode v))

/-- Put an entry at its place in a list of entries sorted by key. -/
def insertEntry (kv : String × Value) : List (String × Value) → List (String × Value)
  | [] => [kv]
  | x :: rest => if kv.1.data < x.1.data then kv :: x :: rest else x :: insertEntry kv rest

/-- A Go map as `json.Marshal` writes it: the entries sorted by key. -/
def ofMap (entries : List (String × Value)) : Value :=
  Value.Obj (entries.foldr insertEntry [])

end json

/-! ## `models/user.go` -/

namespace time

/-- A `time.Time`, carried as the RFC 3339 text `json.Marshal` writes for it. -/
structure Time where
  text : String
deriving DecidableEq, Repr

/-- The zero `time.Time`. -/
def zero : Time := ⟨"0001-01-01T00:00:00Z"⟩

end time

namespace models

/-- The struct `User`. -/
structure User where
  ID : String
  Email : String
  Name : String
  CreatedAt : time.Time := time.zero
  UpdatedAt : time.Time := time.zero
deriving DecidableEq, Repr

/-- The struct `CreateUserInput`. -/
structure CreateUserInput where
  Email : String
  Name : String
deriving DecidableEq, Repr

/-- The struct `UpdateUserInput`. -/
structure UpdateUserInput where
  Email : String
  Name : String
deriving DecidableEq, Repr

/-- A `User` as `json.Marshal` sees it, by its `json` tags. -/
def User.toJSON (u : User) : json.Value :=
  json.Value.Obj
    [ ("id", json.Value.Str u.ID),
      ("email", json.Value.Str u.Email),
      ("name", json.Value.Str u.Name),
      ("created_at", json.Value.Str u.CreatedAt.text),
      ("updated_at", json.Value.Str u.UpdatedAt.text) ]

end models

/-! ## `handlers/health.go` and `handlers/users.go` -/

namespace handlers

/-- The function `respondWithJSON` of `handlers/health.go`. -/
def respondWithJSON (code : Nat) (payload : json.Value) : List Call :=
  match json.Marshal payload with
  | Except.error _ =>
    [ Call.WriteHeader http.StatusInternalServerError,
      Call.Write "\x7b\"error\":\"Internal server error\"\x7d" ]
  | Except.ok response =>
    [ Call.HeaderSet "Content-Type" "application/json",
      Call.WriteHeader code,
      Call.Write response ]

/-- The function `respondWithError` of `handlers/users.go`. -/
def respondWithError (code : Nat) (message : String) : List Call :=
  let response := json.ofMap [("error", json.Value.Str message)]
  respondWithJSON code response

/-- The struct `ReadinessResponse`. -/
structure ReadinessResponse where
  Status : String
  Checks : List (String × String)
  Timestamp : time.Time
deriving DecidableEq, Repr

/-- A `ReadinessResponse` as `json.Marshal` sees it. -/
def ReadinessResponse.toJSON (resp : ReadinessResponse) : json.Value :=
  json.Value.Obj
    [ ("status", json.Value.Str resp.Status),
      ("checks", json.ofMap (resp.Checks.map fun kv => (kv.1, json.Value.Str kv.2))),
      ("timestamp", json.Value.Str resp.Timestamp.text) ]

/-- The loop `for _, check := range checks` of `ReadinessCheck`, entered with
the current `status`; the entries come in the order the map yields them. -/
def overallStatus (status : String) : List (String × String) → String
  | [] => status
  | (_, check) :: rest =>
    if check ≠ "healthy" then "not ready" else overallStatus status rest

/-- The part of `ReadinessCheck` after the map `checks` is filled. -/
def ReadinessCheckOf (checks : List (String × String)) (now : time.Time) : List Call :=
  let status := overallStatus "ready" checks
  let response : ReadinessResponse :=
    { Status := status, Checks := checks, Timestamp := now }
  let statusCode :=
    if status ≠ "ready" then http.StatusServiceUnavailable else http.StatusOK
  respondWithJSON statusCode response.toJSON

/-- The handler `ReadinessCheck`; `now` is the value of `time.Now()`. -/
def ReadinessCheck (now : time.Time) : Handler := fun r =>
  let checks : List (String × String) := [("application", "healthy")]
  ReadinessCheckOf checks now

/-- The handler `ListUsers`. -/
def ListUsers : Handler := fun r =>
  let users : List models.User :=
    [ { ID := "1", Email := "user1@example.com", Name := "User One" },
      { ID := "2", Email := "user2@example.com", Name := "User Two" } ]
  let response := json.ofMap
    [ ("data", json.Value.Arr (users.map models.User.toJSON)),
      ("meta", json.ofMap [("total", json.Value.Num users.length)]) ]
  respondWithJSON http.StatusOK response

/-- The handler `GetUser`. -/
def GetUser : Handler := fun r =>
  let id := chi.URLParam r "id"
  let user : models.User := { ID := id, Email := "user@example.com", Name := "Example User" }
  let response := json.ofMap [("data", user.toJSON)]
  respondWithJSON http.StatusOK response

/-- The handler `CreateUser`; `Decode body` is the outcome of
`json.NewDecoder(r.Body).Decode(&input)`: an error, or the input decoded. -/
def CreateUser (Decode : String → Except String models.CreateUserInput) : Handler := fun r =>
  match Decode r.Body with
  | Except.error _ => respondWithError http.StatusBadRequest "Invalid request payload"
  | Except.ok input =>
    if input.Email = "" ∨ input.Name = "" then
      respondWithError http.StatusBadRequest "Email and name are required"
    else
      let user : models.User := { ID := "new-user-id", Email := input.Email, Name := input.Name }
      let response := json.ofMap [("data", user.toJSON)]
      respondWithJSON http.StatusCreated response

/-- The handler `UpdateUser`; `Decode` as for `CreateUser`. -/
def UpdateUser (Decode : String → Except String models.UpdateUserInput) : Handler := fun r =>
  let id := chi.URLParam r "id"
  match Decode r.Body with
  | Except.error _ => respondWithError http.StatusBadRequest "Invalid request payload"
  | Except.ok input =>
    let user : models.User := { ID := id, Email := input.Email, Name := input.Name }
    let response := json.ofMap [("data", user.toJSON)]
    respondWithJSON http.StatusOK response

/-- The handler `DeleteUser`. -/
def DeleteUser : Handler := fun r =>
  let id := chi.URLParam r "id"
  let _ := id
  [Call.WriteHeader http.StatusNoContent]

/-- The handler `ProtectedEndpoint`. -/
def ProtectedEndpoint : Handler := fun r =>
  let response := json.ofMap
    [ ("message", json.Value.Str "This is a protected endpoint"),
      ("data", json.Value.Str "Secret data") ]
  respondWithJSON http.StatusOK response

end handlers

/-! ## `encoding/json`: reading an object of strings

A reader for the JSON texts the error responses are compared by: an object
whose values are strings.  It follows the JSON grammar and the way
`encoding/json` unquotes a string literal. -/

namespace json

/-- The value of a hexadecimal digit. -/
def hexValue (c : Char) : Option Nat :=
  if '0'.toNat ≤ c.toNat ∧ c.toNat ≤ '9'.toNat then some (c.toNat - '0'.toNat)
  else if 'a'.toNat ≤ c.toNat ∧ c.toNat ≤ 'f'.toNat then some (c.toNat - 'a'.toNat + 10)
  else if 'A'.toNat ≤ c.toNat ∧ c.toNat ≤ 'F'.toNat then some (c.toNat - 'A'.toNat + 10)
  else none

/-- The number written by four hexadecimal digits (`getu4`). -/
def getu4 (a b c d : Char) : Option Nat :=
  match hexValue a, hexValue b, hexValue c, hexValue d with
  | some x, some y, some z, some w => some (((x * 16 + y) * 16 + z) * 16 + w)
  | _, _, _, _ => none

/-- The character a one letter escape stands for. -/
def unescape (c : Char) : Option Char :=
  if c = '"' ∨ c = '\\' ∨ c = '/' then some c
  else if c = 'b' then some '\x08'
  else if c = 'f' then some '\x0c'
  else if c = 'n' then some '\n'
  else if c = 'r' then some '\r'
  else if c = 't' then some '\t'
  else none

/-- Put a character in front of what is read after it. -/
def push (c : Char) : Option (List Char × List Char) → Option (List Char × List Char)
  | none => none
  | some (s, rest) => some (c :: s, rest)

/-- Whether `n` is a UTF-16 surrogate. -/
def isSurrogate (n : Nat) : Bool := decide (0xD800 ≤ n ∧ n < 0xE000)

/-- The character for the surrogate `hi` when the input goes on with the
escape of the low surrogate that completes it. -/
def decodePair (hi : Nat) (x y a b c d : Char) : Option Char :=
  if x = '\\' ∧ y = 'u' then
    match getu4 a b c d with
    | some lo =>
      if hi < 0xDC00 ∧ 0xDC00 ≤ lo ∧ lo < 0xE000 then
        some (Char.ofNat (0x10000 + (hi - 0xD800) * 0x400 + (lo - 0xDC00)))
      else none
    | none => none
  else none

/-- Read a string literal from the character after its opening quote: the
string it stands for and the input after its closing quote.  An escape of a
surrogate that no low surrogate completes stands for U+FFFD.  Every step
takes at least one character, `fuel` bounds the number of steps. -/
def readStringAux : Nat → List Char → Option (List Char × List Char)
  | 0, _ => none
  | _ + 1, [] => none
  | fuel + 1, c :: rest =>
    if c = '"' then some ([], rest)
    else if c = '\\' then
      match rest with
      | [] => none
      | e :: rest1 =>
        if e = 'u' then
          match rest1 with
          | a :: b :: c1 :: d :: rest2 =>
            match getu4 a b c1 d with
            | none => none
            | some n =>
              if isSurrogate n then
                match rest2 with
                | x :: y :: a2 :: b2 :: c2 :: d2 :: rest3 =>
                  match decodePair n x y a2 b2 c2 d2 with
                  | some ch => push ch (readStringAux fuel rest3)
                  | none => push (Char.ofNat 0xFFFD) (readStringAux fuel rest2)
                | _ => push (Char.ofNat 0xFFFD) (readStringAux fuel rest2)
              else push (Char.ofNat n) (readStringAux fuel rest2)
          | _ => none
        else
          match unescape e with
          | some ch => push ch (readStringAux fuel rest1)
          | none => none
    else if c.toNat < 0x20 then none
    else push c (readStringAux fuel rest)

/-- Read a string literal, with as many steps as the input has characters. -/
def readString (s : List Char) : Option (List Char × List Char) :=
  readStringAux s.length s

/-- Drop the JSON white space at the head of the input. -/
def skipSpace : List Char → List Char
  | [] => []
  | c :: rest =>
    if c = ' ' ∨ c = '\t' ∨ c = '\n' ∨ c = '\r' then skipSpace rest else c :: rest

/-- Read one member `"key": "value"` of an object. -/
def readMember (s : List Char) : Option ((String × String) × List Char) :=
  match skipSpace s with
  | [] => none
  | q :: s1 =>
    if q = '"' then
      match readString s1 with
      | none => none
      | some (key, s2) =>
        match skipSpace s2 with
        | [] => none
        | colon :: s3 =>
          if colon = ':' then
            match skipSpace s3 with
            | [] => none
            | q2 :: s4 =>
              if q2 = '"' then
                match readString s4 with
                | none => none
                | some (value, s5) => some ((String.mk key, String.mk value), s5)
              else none
          else none
    else none

/-- Read the members of an object up to its closing brace; `fuel` bounds
their number. -/
def readMembers : Nat → List Char → Option (List (String × String) × List Char)
  | 0, _ => none
  | fuel + 1, s =>
    match readMember s with
    | none => none
    | some (kv, rest) =>
      match skipSpace rest with
      | [] => none
      | c :: rest1 =>
        if c = ',' then
          match readMembers fuel rest1 with
          | none => none
          | some (kvs, rest2) => some (kv :: kvs, rest2)
        else if c = '\x7d' then some ([kv], rest1)
        else none

/-- The members of the JSON text `s` when it is an object whose values are
strings, in the order they are written; `none` for any other text. -/
def decodeObject (s : String) : Option (List (String × String)) :=
  match skipSpace s.data with
  | [] => none
  | c :: s1 =>
    if c = '\x7b' then
      match skipSpace s1 with
      | [] => none
      | c1 :: s2 =>
        if c1 = '\x7d' then
          if skipSpace s2 = [] then some [] else none
        else
          match readMembers s.length s1 with
          | none => none
          | some (kvs, s3) => if skipSpace s3 = [] then some kvs else none
    else none

end json

/-! ## Looking into payloads and request bodies -/

namespace json

/-- The value of the field `key` of an object. -/
def Value.get (v : Value) (key : String) : Option Value :=
  match v with
  | Value.Obj fields =>
    match fields.find? (fun kv => kv.1 = key) with
    | some kv => some kv.2
    | none => none
  | _ => none

/-- The string a JSON object of strings gives to the struct field tagged
`key`: the value of the last member of that name, `""` when there is none. -/
def fieldOf (key : String) (members : List (String × String)) : String :=
  match members.reverse.find? (fun kv => kv.1 = key) with
  | some kv => kv.2
  | none => ""

end json

/-- A decoder to put for the parameter `Decode` of `CreateUser`: a body that
is a JSON object of strings is decoded by the tags `email` and `name`, any
other body is an error.  (`encoding/json` decodes more bodies than these.) -/
def decodeCreateUserInput (body : String) : Except String models.CreateUserInput :=
  match json.decodeObject body with
  | none => Except.error "invalid JSON"
  | some members =>
    Except.ok { Email := json.fieldOf "email" members, Name := json.fieldOf "name" members }

/-- A decoder to put for the parameter `Decode` of `UpdateUser`, as
`decodeCreateUserInput`. -/
def decodeUpdateUserInput (body : String) : Except String models.UpdateUserInput :=
  match json.decodeObject body with
  | none => Except.error "invalid JSON"
  | some members =>
    Except.ok { Email := json.fieldOf "email" members, Name := json.fieldOf "name" members }

/-- A request with method, path, body and the path parameter `id`. -/
def requestWith (method path body id : String) : Request :=
  { Method := method, Path := path, Header := [], Body := body,
    URLParams := [("id", id)], Context := [] }

/-! ## Concrete requests -/

/-- A request for the protected endpoint whose header has a second space. -/
def twoSpaceRequest : Request :=
  { Method := "GET", Path := "/api/v1/protected",
    Header := [("Authorization", ["Bearer a b"])],
    Body := "", URLParams := [], Context := [] }

/-! ## Facts about the JSON writer and reader -/

theorem hexValue_hexDigit (k : Nat) (h : k < 16) :
    json.hexValue (json.hexDigit k) = some k := by
  interval_cases k <;> decide

theorem getu4_low (n : Nat) (h : n < 256) :
    json.getu4 '0' '0' (json.hexDigit (n / 16)) (json.hexDigit (n % 16)) = some n := by
  have h1 := hexValue_hexDigit (n / 16) (by omega)
  have h2 := hexValue_hexDigit (n % 16) (by omega)
  have h0 : json.hexValue '0' = some 0 := by decide
  simp only [json.getu4, h0, h1, h2, Option.some.injEq]
  omega

/-- Reading what `appendChar` writes for `c` gives `c` back. -/
theorem readStringAux_appendChar (c : Char) (fuel : Nat) (tail : List Char) :
    json.readStringAux (fuel + 1) (json.appendChar c ++ tail) =
      json.push c (json.readStringAux fuel tail) := by
  unfold json.appendChar
  split_ifs with h1 h2 h3 h4 h5 h6 h7 h8 h9
  · -- written as it is
    simp only [json.htmlSafeSet, decide_eq_true_eq] at h2
    obtain ⟨h20, -, hq, -, -, -, hb⟩ := h2
    have : ¬ c.toNat < 32 := by omega
    simp [json.readStringAux, hq, hb, this]
  · rcases h3 with rfl | rfl <;> simp [json.readStringAux, json.unescape]
  · subst h4; simp [json.readStringAux, json.unescape]
  · subst h5; simp [json.readStringAux, json.unescape]
  · subst h6; simp [json.readStringAux, json.unescape]
  · subst h7; simp [json.readStringAux, json.unescape]
  · subst h8; simp [json.readStringAux, json.unescape]
  · have hn : json.isSurrogate c.toNat = false := by
      simp only [json.isSurrogate, decide_eq_false_iff_not, not_and, not_lt]
      omega
    simp [json.readStringAux, getu4_low c.toNat (by omega), hn]
  · rcases h9 with rfl | rfl <;> rfl
  · have hq : c ≠ '"' := by rintro rfl; exact h1 (by decide)
    have hb : c ≠ '\\' := by rintro rfl; exact h1 (by decide)
    have : ¬ c.toNat < 32 := by omega
    simp [json.readStringAux, hq, hb, this]

theorem readStringAux_escape (s : List Char) (fuel : Nat) (rest : List Char)
    (h : s.length < fuel) :
    json.readStringAux fuel (json.escape s ++ '"' :: rest) = some (s, rest) := by
  induction s generalizing fuel with
  | nil =>
    cases fuel with
    | zero => simp at h
    | succ f => simp [json.escape, json.readStringAux]
  | cons c cs ih =>
    cases fuel with
    | zero => simp at h
    | succ f =>
      have hf : cs.length < f := by simpa using h
      rw [json.escape, List.append_assoc, readStringAux_appendChar, ih f hf]
      rfl

theorem length_le_escape (s : List Char) : s.length ≤ (json.escape s).length := by
  induction s with
  | nil => simp [json.escape]
  | cons c cs ih =>
    have hc : 1 ≤ (json.appendChar c).length := by
      unfold json.appendChar
      split_ifs <;> simp
    simp only [json.escape, List.length_cons, List.length_append]
    omega

/-- Reading a string literal written by `quote`, after its opening quote,
gives the string back. -/
theorem readString_escape (s rest : List Char) :
    json.readString (json.escape s ++ '"' :: rest) = some (s, rest) := by
  unfold json.readString
  apply readStringAux_escape
  have := length_le_escape s
  simp only [List.length_append, List.length_cons]
  omega

/-- The text `json.Marshal` writes for the map with the one entry
`"error": message` reads back as that entry. -/
theorem decodeObject_error_map (message : String) :
    json.decodeObject
        (String.mk (json.encode (json.ofMap [("error", json.Value.Str message)]))) =
      some [("error", message)] := by
  have hkey : json.quote "error" = '"' :: (json.escape "error".data ++ ['"']) := rfl
  have hmem : ∀ rest, json.readMember
      ('"' :: (json.escape "error".data ++
        '"' :: ':' :: '"' :: (json.escape message.data ++ '"' :: rest))) =
      some (("error", message), rest) := by
    intro rest
    simp [json.readMember, json.skipSpace, readString_escape]
  simp only [json.decodeObject, json.ofMap, List.foldr, json.insertEntry, json.encode,
    json.encodeFields, json.encodeMoreFields, json.quote, List.append_nil]
  simp [json.skipSpace, json.readMembers, hmem]

/-! ## Facts about `strings.Split` -/

theorem splitChars_ne_nil (sep : Char) (s : List Char) : strings.splitChars sep s ≠ [] := by
  cases s with
  | nil => simp [strings.splitChars]
  | cons c cs =>
    simp only [strings.splitChars]
    split
    · simp
    · split <;> simp

theorem splitChars_eq_single (sep : Char) (s p : List Char) :
    strings.splitChars sep s = [p] ↔ s = p ∧ sep ∉ p := by
  induction s generalizing p with
  | nil =>
    simp only [strings.splitChars, List.cons.injEq, and_true]
    constructor
    · intro h; subst h; simp
    · intro h; exact h.1
  | cons c cs ih =>
    simp only [strings.splitChars]
    by_cases hc : c = sep
    · simp only [hc, if_true, List.cons.injEq]
      constructor
      · intro h; exact absurd h.2 (splitChars_ne_nil sep cs)
      · intro h
        obtain ⟨h1, h2⟩ := h
        subst h1
        exact absurd (List.mem_cons_self _ _) h2
    · simp only [hc, if_false]
      cases hs : strings.splitChars sep cs with
      | nil => exact absurd hs (splitChars_ne_nil sep cs)
      | cons q qs =>
        simp only [List.cons.injEq]
        constructor
        · intro h
          obtain ⟨h1, h2⟩ := h
          subst h1 h2
          have := (ih q).1 hs
          refine ⟨by rw [this.1], ?_⟩
          simp only [List.mem_cons, not_or]
          exact ⟨fun e => hc e.symm, this.2⟩
        · intro h
          obtain ⟨h1, h2⟩ := h
          subst h1
          simp only [List.mem_cons, not_or] at h2
          have := (ih cs).2 ⟨rfl, h2.2⟩
          rw [this] at hs
          simp only [List.cons.injEq] at hs
          exact ⟨by rw [hs.1], hs.2.symm⟩

theorem splitChars_eq_pair (sep : Char) (s p q : List Char) :
    strings.splitChars sep s = [p, q] ↔ s = p ++ sep :: q ∧ sep ∉ p ∧ sep ∉ q := by
  induction s generalizing p with
  | nil => simp [strings.splitChars]
  | cons c cs ih =>
    simp only [strings.splitChars]
    by_cases hc : c = sep
    · simp only [hc, if_true, List.cons.injEq]
      rw [splitChars_eq_single]
      constructor
      · intro h
        obtain ⟨h1, h2, h3⟩ := h
        subst h1 h2
        simp [h3]
      · intro h
        obtain ⟨h1, h2, h3⟩ := h
        cases p with
        | nil =>
          simp only [List.nil_append, List.cons.injEq, true_and] at h1
          exact ⟨rfl, h1, h3⟩
        | cons a p =>
          simp only [List.cons_append, List.cons.injEq] at h1
          exact absurd (by rw [← h1.1]; exact List.mem_cons_self _ _) h2
    · simp only [hc, if_false]
      cases hs : strings.splitChars sep cs with
      | nil => exact absurd hs (splitChars_ne_nil sep cs)
      | cons p' ps =>
        simp only [List.cons.injEq]
        constructor
        · intro h
          obtain ⟨h1, h2⟩ := h
          subst h1 h2
          have := (ih p').1 hs
          refine ⟨by rw [this.1]; rfl, ?_, this.2.2⟩
          simp only [List.mem_cons, not_or]
          exact ⟨fun e => hc e.symm, this.2.1⟩
        · intro h
          obtain ⟨h1, h2, h3⟩ := h
          cases p with
          | nil =>
            simp only [List.nil_append, List.cons.injEq] at h1
            exact absurd h1.1 hc
          | cons a p =>
            simp only [List.cons_append, List.cons.injEq] at h1
            simp only [List.mem_cons, not_or] at h2
            have := (ih p).2 ⟨h1.2, h2.2, h3⟩
            rw [this] at hs
            simp only [List.cons.injEq] at hs
            exact ⟨by rw [h1.1, hs.1], hs.2.symm⟩

/-- The response of `Auth` when the header is refused with `message`. -/
theorem Auth_of_empty (jwtSecret : String) (r : Request)
    (h : r.Header.Get "Authorization" = "") :
    middleware.Auth jwtSecret r =
      middleware.respondWithError 401 "Missing authorization header" := by
  simp [middleware.Auth, h, http.StatusUnauthorized]

theorem Split_pair_iff (h : String) :
    ((strings.Split h ' ').length = 2 ∧ (strings.Split h ' ').getD 0 "" = "Bearer") ↔
      ∃ q, strings.splitChars ' ' h.data = ["Bearer".data, q] := by
  unfold strings.Split
  cases hs : strings.splitChars ' ' h.data with
  | nil => simp
  | cons a t =>
    cases t with
    | nil => simp
    | cons b t =>
      cases t with
      | nil =>
        simp only [List.map_cons, List.map_nil, List.length_cons, List.length_nil,
          List.getD_cons_zero, true_and, List.cons.injEq, and_true]
        constructor
        · intro e
          refine ⟨b, ?_, rfl⟩
          have := congrArg String.data e
          simpa using this
        · rintro ⟨q, e, -⟩
          rw [e]
      | cons c t => simp

theorem Auth_of_split (jwtSecret : String) (r : Request) (q : List Char)
    (hne : r.Header.Get "Authorization" ≠ "")
    (hs : strings.splitChars ' ' (r.Header.Get "Authorization").data = ["Bearer".data, q]) :
    middleware.Auth jwtSecret r =
      if q = [] then middleware.respondWithError 401 "Invalid token"
      else [Call.ServeHTTP
        (r.WithContext (r.Context.WithValue UserContextKey middleware.examplePrincipal))] := by
  have hp := (Split_pair_iff (r.Header.Get "Authorization")).2 ⟨q, hs⟩
  have htok : (strings.Split (r.Header.Get "Authorization") ' ').getD 1 "" = String.mk q := by
    simp [strings.Split, hs]
  simp only [middleware.Auth, hne, if_false, hp.1, hp.2, ne_eq, not_true_eq_false, or_self,
    htok, http.StatusUnauthorized]
  by_cases hq : q = []
  · subst hq
    simp
  · have : String.mk q ≠ "" := by
      intro e
      exact hq (by simpa using congrArg String.data e)
    simp [hq, this]

theorem Auth_of_not_split (jwtSecret : String) (r : Request)
    (hne : r.Header.Get "Authorization" ≠ "")
    (hs : ¬ ∃ q, strings.splitChars ' ' (r.Header.Get "Authorization").data = ["Bearer".data, q]) :
    middleware.Auth jwtSecret r =
      middleware.respondWithError 401 "Invalid authorization header format" := by
  have hp := (not_congr (Split_pair_iff (r.Header.Get "Authorization"))).2 hs
  have hp' : (strings.Split (r.Header.Get "Authorization") ' ').length ≠ 2 ∨
      (strings.Split (r.Header.Get "Authorization") ' ').getD 0 "" ≠ "Bearer" := by
    by_contra hcon
    simp only [not_or, not_not] at hcon
    exact hp hcon
  simp only [middleware.Auth, hne, if_false, hp', if_true, http.StatusUnauthorized]

theorem split_bearer_iff (h : String) (q : List Char) :
    strings.splitChars ' ' h.data = ["Bearer".data, q] ↔
      h = "Bearer " ++ String.mk q ∧ ' ' ∉ q := by
  rw [splitChars_eq_pair, String.ext_iff, String.data_append]
  have hb : ' ' ∉ "Bearer".data := by decide
  have hd : "Bearer ".data ++ q = "Bearer".data ++ ' ' :: q := by
    show ("Bearer".data ++ [' ']) ++ q = _
    simp
  constructor
  · rintro ⟨h1, -, h3⟩
    exact ⟨by rw [h1, hd], h3⟩
  · rintro ⟨h1, h3⟩
    exact ⟨by rw [h1, hd], hb, h3⟩

theorem bearer_form_iff (h : String) :
    (∃ q, q ≠ [] ∧ strings.splitChars ' ' h.data = ["Bearer".data, q]) ↔
      ∃ token : String, token ≠ "" ∧ ' ' ∉ token.data ∧ h = "Bearer " ++ token := by
  constructor
  · rintro ⟨q, hq, hs⟩
    rw [split_bearer_iff] at hs
    refine ⟨String.mk q, ?_, hs.2, hs.1⟩
    intro e
    exact hq (by simpa using congrArg String.data e)
  · rintro ⟨token, h1, h2, h3⟩
    refine ⟨token.data, ?_, ?_⟩
    · intro e
      exact h1 (String.ext_iff.2 (by simpa using e))
    · rw [split_bearer_iff]
      exact ⟨h3, h2⟩

/-- The four cases of `Auth`, by the form of the `Authorization` header. -/
theorem Auth_cases (jwtSecret : String) (r : Request) :
    (r.Header.Get "Authorization" = "" ∧
      middleware.Auth jwtSecret r =
        middleware.respondWithError 401 "Missing authorization header") ∨
    (r.Header.Get "Authorization" = "Bearer " ∧
      middleware.Auth jwtSecret r = middleware.respondWithError 401 "Invalid token") ∨
    ((∃ token : String, token ≠ "" ∧ ' ' ∉ token.data ∧
        r.Header.Get "Authorization" = "Bearer " ++ token) ∧
      middleware.Auth jwtSecret r =
        [Call.ServeHTTP
          (r.WithContext (r.Context.WithValue UserContextKey middleware.examplePrincipal))]) ∨
    ((r.Header.Get "Authorization" ≠ "" ∧ r.Header.Get "Authorization" ≠ "Bearer " ∧
        ¬ ∃ token : String, token ≠ "" ∧ ' ' ∉ token.data ∧
          r.Header.Get "Authorization" = "Bearer " ++ token) ∧
      middleware.Auth jwtSecret r =
        middleware.respondWithError 401 "Invalid authorization header format") := by
  by_cases hne : r.Header.Get "Authorization" = ""
  · exact Or.inl ⟨hne, Auth_of_empty jwtSecret r hne⟩
  · by_cases hs : ∃ q, strings.splitChars ' ' (r.Header.Get "Authorization").data
        = ["Bearer".data, q]
    · obtain ⟨q, hq⟩ := hs
      have hA := Auth_of_split jwtSecret r q hne hq
      by_cases hq0 : q = []
      · subst hq0
        refine Or.inr (Or.inl ⟨?_, by simpa using hA⟩)
        exact ((split_bearer_iff _ _).1 hq).1
      · refine Or.inr (Or.inr (Or.inl ⟨?_, by simpa [hq0] using hA⟩))
        exact (bearer_form_iff _).1 ⟨q, hq0, hq⟩
    · refine Or.inr (Or.inr (Or.inr ⟨⟨hne, ?_, ?_⟩, Auth_of_not_split jwtSecret r hne hs⟩))
      · intro e
        apply hs
        exact ⟨[], by rw [e]; decide⟩
      · intro hform
        obtain ⟨q, -, hq⟩ := (bearer_form_iff _).2 hform
        exact hs ⟨q, hq⟩

/-- The handler `ProtectedEndpoint` answers 200 for every request. -/
theorem ProtectedEndpoint_status (r : Request) :
    statusOf (handlers.ProtectedEndpoint r) = 200 := by
  simp [handlers.ProtectedEndpoint, handlers.respondWithJSON, json.Marshal, statusOf,
    http.StatusOK]

/-- What `Auth` writes and how often it calls the next handler is the same for
two requests with the same `Authorization` header, whatever the secrets. -/
theorem Auth_observable_congr (s s' : String) (r r' : Request)
    (e : r'.Header.Get "Authorization" = r.Header.Get "Authorization") :
    statusWrites (middleware.Auth s' r') = statusWrites (middleware.Auth s r) ∧
    bodyOf (middleware.Auth s' r') = bodyOf (middleware.Auth s r) ∧
    nextCalls (middleware.Auth s' r') = nextCalls (middleware.Auth s r) := by
  simp only [middleware.Auth, e]
  split_ifs <;> exact ⟨rfl, rfl, rfl⟩

/-- C1 (as stated, refuted): the header `Bearer a b` is not empty, has the
scheme `Bearer` and the non-empty token `a b` after it, and yet `Auth` answers
401 and does not pass the request on. -/
theorem Auth_refuses_token_with_space :
    twoSpaceRequest.Header.Get "Authorization" = "Bearer" ++ " " ++ "a b" ∧
    twoSpaceRequest.Header.Get "Authorization" ≠ "" ∧
    "a b" ≠ "" ∧
    statusOf (Use (middleware.Auth "secret") handlers.ProtectedEndpoint twoSpaceRequest) = 401 ∧
    nextCalls (middleware.Auth "secret" twoSpaceRequest) = 0 := by
  decide

/-- C1 (amended): for every request reaching `Auth` in front of the protected
endpoint, the response is 401 and the request is not passed on when the
`Authorization` header is empty, when it is `Bearer ` with an empty token, or
when it is not `Bearer ` followed by a token without a space; in every other
case, that is when the header is `Bearer ` followed by a non-empty token
without a space, the request is passed on once and the endpoint answers 200. -/
theorem Auth_protected_status (jwtSecret : String) (r : Request) :
    ((r.Header.Get "Authorization" = "" ∨ r.Header.Get "Authorization" = "Bearer " ∨
        ¬ ∃ token : String, ' ' ∉ token.data ∧
          r.Header.Get "Authorization" = "Bearer " ++ token) ∧
      statusOf (Use (middleware.Auth jwtSecret) handlers.ProtectedEndpoint r) = 401 ∧
      nextCalls (middleware.Auth jwtSecret r) = 0) ∨
    ((∃ token : String, token ≠ "" ∧ ' ' ∉ token.data ∧
        r.Header.Get "Authorization" = "Bearer " ++ token) ∧
      nextCalls (middleware.Auth jwtSecret r) = 1 ∧
      Use (middleware.Auth jwtSecret) handlers.ProtectedEndpoint r =
        handlers.ProtectedEndpoint
          (r.WithContext (r.Context.WithValue UserContextKey middleware.examplePrincipal)) ∧
      statusOf (Use (middleware.Auth jwtSecret) handlers.ProtectedEndpoint r) = 200) := by
  rcases Auth_cases jwtSecret r with ⟨h, e⟩ | ⟨h, e⟩ | ⟨h, e⟩ | ⟨⟨h1, h2, h3⟩, e⟩
  · exact Or.inl ⟨Or.inl h, by rw [Use, e]; rfl, by rw [e]; rfl⟩
  · exact Or.inl ⟨Or.inr (Or.inl h), by rw [Use, e]; rfl, by rw [e]; rfl⟩
  · refine Or.inr ⟨h, by rw [e]; rfl, ?_, ?_⟩
    · rw [Use, e]
      simp [splice]
    · rw [Use, e]
      simp only [splice, List.append_nil]
      exact ProtectedEndpoint_status _
  · refine Or.inl ⟨Or.inr (Or.inr ?_), by rw [Use, e]; rfl, by rw [e]; rfl⟩
    rintro ⟨token, ht, he⟩
    by_cases h0 : token = ""
    · subst h0
      exact h2 he
    · exact h3 ⟨token, h0, ht, he⟩

/-- C2: the check of `Auth` is a total four-way classification by the
`Authorization` header alone.  The empty header gives 401 "Missing
authorization header"; the header `Bearer ` gives 401 "Invalid token"; a
header `Bearer ` followed by a non-empty token without a space is accepted;
every other header gives 401 "Invalid authorization header format".  The four
outcomes differ from each other, so exactly one of them holds, and what is
written and whether the next handler runs is the same for any other secret
and any other request with the same header. -/
theorem Auth_four_way_classification (jwtSecret : String) (r : Request) :
    ((r.Header.Get "Authorization" = "" ∧
        middleware.Auth jwtSecret r =
          middleware.respondWithError 401 "Missing authorization header") ∨
      (r.Header.Get "Authorization" = "Bearer " ∧
        middleware.Auth jwtSecret r = middleware.respondWithError 401 "Invalid token") ∨
      ((∃ token : String, token ≠ "" ∧ ' ' ∉ token.data ∧
          r.Header.Get "Authorization" = "Bearer " ++ token) ∧
        middleware.Auth jwtSecret r =
          [Call.ServeHTTP
            (r.WithContext
              (r.Context.WithValue UserContextKey middleware.examplePrincipal))]) ∨
      ((r.Header.Get "Authorization" ≠ "" ∧ r.Header.Get "Authorization" ≠ "Bearer " ∧
          ¬ ∃ token : String, token ≠ "" ∧ ' ' ∉ token.data ∧
            r.Header.Get "Authorization" = "Bearer " ++ token) ∧
        middleware.Auth jwtSecret r =
          middleware.respondWithError 401 "Invalid authorization header format")) ∧
    (middleware.respondWithError 401 "Missing authorization header" ≠
        middleware.respondWithError 401 "Invalid token" ∧
      middleware.respondWithError 401 "Missing authorization header" ≠
        middleware.respondWithError 401 "Invalid authorization header format" ∧
      middleware.respondWithError 401 "Invalid token" ≠
        middleware.respondWithError 401 "Invalid authorization header format" ∧
      ∀ (r' : Request) (message : String),
        [Call.ServeHTTP r'] ≠ middleware.respondWithError 401 message) ∧
    (∀ (jwtSecret' : String) (r' : Request),
      r'.Header.Get "Authorization" = r.Header.Get "Authorization" →
        statusWrites (middleware.Auth jwtSecret' r') =
          statusWrites (middleware.Auth jwtSecret r) ∧
        bodyOf (middleware.Auth jwtSecret' r') = bodyOf (middleware.Auth jwtSecret r) ∧
        nextCalls (middleware.Auth jwtSecret' r') =
          nextCalls (middleware.Auth jwtSecret r)) := by
  refine ⟨Auth_cases jwtSecret r, ⟨by decide, by decide, by decide, ?_⟩, ?_⟩
  · intro r' message e
    simp [middleware.respondWithError] at e
  · intro jwtSecret' r' e
    exact Auth_observable_congr jwtSecret jwtSecret' r r' e

/-- C3: for every request, `Auth` either calls the next handler exactly once,
with the request whose context maps `UserContextKey` to the placeholder
principal, and writes no status and no body itself, or it writes one 401 error
response and does not call the next handler. -/
theorem Auth_next_once_or_refuse (jwtSecret : String) (r : Request) :
    (nextCalls (middleware.Auth jwtSecret r) = 1 ∧
      (∃ r' : Request, middleware.Auth jwtSecret r = [Call.ServeHTTP r'] ∧
        r'.Context.Value UserContextKey =
          some [("id", "example-user-id"), ("email", "user@example.com")] ∧
        r' = { r with Context := r'.Context }) ∧
      statusWrites (middleware.Auth jwtSecret r) = [] ∧
      bodyOf (middleware.Auth jwtSecret r) = "") ∨
    (nextCalls (middleware.Auth jwtSecret r) = 0 ∧
      (∃ message : String,
        middleware.Auth jwtSecret r = middleware.respondWithError 401 message) ∧
      statusWrites (middleware.Auth jwtSecret r) = [401]) := by
  rcases Auth_cases jwtSecret r with ⟨_, e⟩ | ⟨_, e⟩ | ⟨_, e⟩ | ⟨_, e⟩
  · exact Or.inr ⟨by rw [e]; rfl, ⟨_, e⟩, by rw [e]; rfl⟩
  · exact Or.inr ⟨by rw [e]; rfl, ⟨_, e⟩, by rw [e]; rfl⟩
  · refine Or.inl ⟨by rw [e]; rfl, ⟨_, e, ?_, rfl⟩, by rw [e]; rfl, by rw [e]; rfl⟩
    simp [Request.WithContext, Context.WithValue, Context.Value, middleware.examplePrincipal]
  · exact Or.inr ⟨by rw [e]; rfl, ⟨_, e⟩, by rw [e]; rfl⟩

/-! ## The handlers -/

theorem respondWithJSON_calls (code : Nat) (payload : json.Value) :
    handlers.respondWithJSON code payload =
      [ Call.HeaderSet "Content-Type" "application/json",
        Call.WriteHeader code,
        Call.Write (String.mk (json.encode payload)) ] := by
  simp [handlers.respondWithJSON, json.Marshal]

theorem respondWithJSON_status (code : Nat) (payload : json.Value) :
    statusOf (handlers.respondWithJSON code payload) = code := by
  rw [respondWithJSON_calls]; rfl

theorem respondWithJSON_body (code : Nat) (payload : json.Value) :
    bodyOf (handlers.respondWithJSON code payload) = String.mk (json.encode payload) := by
  rw [respondWithJSON_calls]
  simp [bodyOf]

/-- The body of an error response of the handlers reads back as the object
with the one member `"error": message`. -/
theorem respondWithError_envelope (code : Nat) (message : String) :
    statusOf (handlers.respondWithError code message) = code ∧
    json.decodeObject (bodyOf (handlers.respondWithError code message)) =
      some [("error", message)] := by
  unfold handlers.respondWithError
  exact ⟨respondWithJSON_status _ _, by rw [respondWithJSON_body, decodeObject_error_map]⟩

theorem overallStatus_eq (checks : List (String × String)) :
    handlers.overallStatus "ready" checks =
      if ∃ kv ∈ checks, kv.2 ≠ "healthy" then "not ready" else "ready" := by
  induction checks with
  | nil => simp [handlers.overallStatus]
  | cons kv rest ih =>
    obtain ⟨k, check⟩ := kv
    by_cases hc : check = "healthy"
    · subst hc
      have : (∃ kv ∈ (k, "healthy") :: rest, kv.2 ≠ "healthy") ↔
          ∃ kv ∈ rest, kv.2 ≠ "healthy" := by
        simp
      rw [if_congr this rfl rfl, ← ih]
      simp [handlers.overallStatus]
    · simp [handlers.overallStatus, hc]

/-- C4: for every map of checks, the status decision of `ReadinessCheck`
gives 503 with the status "not ready" exactly when some check value differs
from "healthy", and 200 with the status "ready" otherwise; with the checks the
handler builds the response is 200 "ready". -/
theorem ReadinessCheck_status (checks : List (String × String)) (now : time.Time) :
    (statusOf (handlers.ReadinessCheckOf checks now) = 503 ↔
      ∃ kv ∈ checks, kv.2 ≠ "healthy") ∧
    (statusOf (handlers.ReadinessCheckOf checks now) = 200 ↔
      ∀ kv ∈ checks, kv.2 = "healthy") ∧
    ((∃ kv ∈ checks, kv.2 ≠ "healthy") →
      handlers.ReadinessCheckOf checks now =
        handlers.respondWithJSON 503
          (handlers.ReadinessResponse.toJSON
            { Status := "not ready", Checks := checks, Timestamp := now })) ∧
    ((∀ kv ∈ checks, kv.2 = "healthy") →
      handlers.ReadinessCheckOf checks now =
        handlers.respondWithJSON 200
          (handlers.ReadinessResponse.toJSON
            { Status := "ready", Checks := checks, Timestamp := now })) ∧
    (∀ r : Request,
      handlers.ReadinessCheck now r =
        handlers.respondWithJSON 200
          (handlers.ReadinessResponse.toJSON
            { Status := "ready", Checks := [("application", "healthy")], Timestamp := now }) ∧
      statusOf (handlers.ReadinessCheck now r) = 200) := by
  have key : handlers.ReadinessCheckOf checks now =
      if ∃ kv ∈ checks, kv.2 ≠ "healthy" then
        handlers.respondWithJSON 503
          (handlers.ReadinessResponse.toJSON
            { Status := "not ready", Checks := checks, Timestamp := now })
      else
        handlers.respondWithJSON 200
          (handlers.ReadinessResponse.toJSON
            { Status := "ready", Checks := checks, Timestamp := now }) := by
    rw [handlers.ReadinessCheckOf, overallStatus_eq]
    by_cases h : ∃ kv ∈ checks, kv.2 ≠ "healthy"
    · simp [h, http.StatusServiceUnavailable]
    · simp [h, http.StatusOK]
  have hall : (∀ kv ∈ checks, kv.2 = "healthy") ↔ ¬ ∃ kv ∈ checks, kv.2 ≠ "healthy" := by
    simp
  refine ⟨?_, ?_, ?_, ?_, ?_⟩
  · rw [key]
    split_ifs with h
    · simp [respondWithJSON_status, h]
    · simp only [respondWithJSON_status]
      exact ⟨fun e => absurd e (by decide), fun e => absurd e h⟩
  · rw [key, hall]
    split_ifs with h
    · simp only [respondWithJSON_status]
      exact ⟨fun e => absurd e (by decide), fun e => absurd h e⟩
    · simp [respondWithJSON_status, h]
  · intro h
    rw [key, if_pos h]
  · intro h
    rw [key, if_neg (hall.1 h)]
  · intro r
    have : handlers.ReadinessCheck now r =
        handlers.respondWithJSON 200
          (handlers.ReadinessResponse.toJSON
            { Status := "ready", Checks := [("application", "healthy")],
              Timestamp := now }) := by
      simp [handlers.ReadinessCheck, handlers.ReadinessCheckOf, handlers.overallStatus,
        http.StatusOK]
    exact ⟨this, by rw [this, respondWithJSON_status]⟩

/-- The two refusals of `CreateUser`. -/
theorem CreateUser_refused
    (Decode : String → Except String models.CreateUserInput) (r : Request)
    (h : (∃ err, Decode r.Body = Except.error err) ∨
      ∃ input, Decode r.Body = Except.ok input ∧ (input.Email = "" ∨ input.Name = "")) :
    ∃ message : String,
      handlers.CreateUser Decode r = handlers.respondWithError 400 message := by
  rcases h with ⟨err, he⟩ | ⟨input, hi, hempty⟩
  · exact ⟨"Invalid request payload", by
      simp [handlers.CreateUser, he, http.StatusBadRequest]⟩
  · exact ⟨"Email and name are required", by
      simp [handlers.CreateUser, hi, hempty, http.StatusBadRequest]⟩

/-- C5: for every request body given to `CreateUser`, when the body fails to
decode, or the decoded input has an empty (or missing, which decodes to empty)
email or name, whatever the other field holds, the response status is 400
and the body is an error envelope. -/
theorem CreateUser_bad_request
    (Decode : String → Except String models.CreateUserInput) (r : Request)
    (h : (∃ err, Decode r.Body = Except.error err) ∨
      ∃ input, Decode r.Body = Except.ok input ∧ (input.Email = "" ∨ input.Name = "")) :
    statusOf (handlers.CreateUser Decode r) = 400 ∧
    statusWrites (handlers.CreateUser Decode r) = [400] ∧
    ∃ message : String,
      handlers.CreateUser Decode r = handlers.respondWithError 400 message ∧
      json.decodeObject (bodyOf (handlers.CreateUser Decode r)) =
        some [("error", message)] := by
  obtain ⟨message, e⟩ := CreateUser_refused Decode r h
  have hw : statusWrites (handlers.respondWithError 400 message) = [400] := by
    rw [handlers.respondWithError, respondWithJSON_calls]
    rfl
  rw [e]
  exact ⟨(respondWithError_envelope _ _).1, hw, _, rfl, (respondWithError_envelope _ _).2⟩

/-- C5 at a body without the field `email` and with a field the input does
not have. -/
theorem CreateUser_bad_request_witness :
    decodeCreateUserInput "\x7b\"name\":\"A\",\"role\":\"admin\"\x7d" =
      Except.ok { Email := "", Name := "A" } ∧
    statusOf (handlers.CreateUser decodeCreateUserInput
      (requestWith "POST" "/api/v1/users" "\x7b\"name\":\"A\",\"role\":\"admin\"\x7d" "")) = 400 :=
  ⟨rfl,
   (CreateUser_bad_request decodeCreateUserInput
      (requestWith "POST" "/api/v1/users" "\x7b\"name\":\"A\",\"role\":\"admin\"\x7d" "")
      (Or.inr ⟨{ Email := "", Name := "A" }, rfl, Or.inl rfl⟩)).1⟩

/-- C6: `CreateUser` answers 201 exactly when the body decodes and both
fields are non-empty, and then the envelope it marshals has the user with the
decoded email and name under `data`. -/
theorem CreateUser_created_iff
    (Decode : String → Except String models.CreateUserInput) (r : Request) :
    (statusOf (handlers.CreateUser Decode r) = 201 ↔
      ∃ input, Decode r.Body = Except.ok input ∧ input.Email ≠ "" ∧ input.Name ≠ "") ∧
    (∀ input, Decode r.Body = Except.ok input → input.Email ≠ "" → input.Name ≠ "" →
      ∃ payload user : json.Value,
        handlers.CreateUser Decode r = handlers.respondWithJSON 201 payload ∧
        payload.get "data" = some user ∧
        user.get "email" = some (json.Value.Str input.Email) ∧
        user.get "name" = some (json.Value.Str input.Name) ∧
        user.get "id" = some (json.Value.Str "new-user-id")) := by
  have hok : ∀ input, Decode r.Body = Except.ok input → input.Email ≠ "" → input.Name ≠ "" →
      handlers.CreateUser Decode r = handlers.respondWithJSON 201
        (json.ofMap [("data", models.User.toJSON
          { ID := "new-user-id", Email := input.Email, Name := input.Name })]) := by
    intro input hi h1 h2
    simp [handlers.CreateUser, hi, h1, h2, http.StatusCreated]
  constructor
  · constructor
    · intro hs
      cases hd : Decode r.Body with
      | error err =>
        obtain ⟨message, e⟩ := CreateUser_refused Decode r (Or.inl ⟨err, hd⟩)
        rw [e, (respondWithError_envelope _ _).1] at hs
        exact absurd hs (by decide)
      | ok input =>
        by_cases hempty : input.Email = "" ∨ input.Name = ""
        · obtain ⟨message, e⟩ := CreateUser_refused Decode r (Or.inr ⟨input, hd, hempty⟩)
          rw [e, (respondWithError_envelope _ _).1] at hs
          exact absurd hs (by decide)
        · simp only [not_or] at hempty
          exact ⟨input, rfl, hempty.1, hempty.2⟩
    · rintro ⟨input, hi, h1, h2⟩
      rw [hok input hi h1 h2, respondWithJSON_status]
  · intro input hi h1 h2
    exact ⟨_, _, hok input hi h1 h2, rfl, rfl, rfl, rfl⟩

/-- C6 at the body `{"email":"a@b.com","name":"A"}`: the answer is 201 and
the body written has `a@b.com` as `data.email`. -/
theorem CreateUser_created_witness :
    decodeCreateUserInput "\x7b\"email\":\"a@b.com\",\"name\":\"A\"\x7d" =
      Except.ok { Email := "a@b.com", Name := "A" } ∧
    statusOf (handlers.CreateUser decodeCreateUserInput
      (requestWith "POST" "/api/v1/users"
        "\x7b\"email\":\"a@b.com\",\"name\":\"A\"\x7d" "")) = 201 ∧
    bodyOf (handlers.CreateUser decodeCreateUserInput
      (requestWith "POST" "/api/v1/users"
        "\x7b\"email\":\"a@b.com\",\"name\":\"A\"\x7d" "")) =
      "\x7b\"data\":\x7b\"id\":\"new-user-id\",\"email\":\"a@b.com\",\"name\":\"A\"," ++
      "\"created_at\":\"0001-01-01T00:00:00Z\",\"updated_at\":\"0001-01-01T00:00:00Z\"\x7d\x7d" :=
  ⟨rfl,
   (CreateUser_created_iff decodeCreateUserInput
      (requestWith "POST" "/api/v1/users"
        "\x7b\"email\":\"a@b.com\",\"name\":\"A\"\x7d" "")).1.2
      ⟨{ Email := "a@b.com", Name := "A" }, rfl, by decide, by decide⟩,
   by decide⟩

/-- C7: for every request, whatever its `id`, `DeleteUser` makes the one call
`WriteHeader(204)`: the status is 204, no other status and no body byte is
written. -/
theorem DeleteUser_no_content (r : Request) :
    handlers.DeleteUser r = [Call.WriteHeader 204] ∧
    statusOf (handlers.DeleteUser r) = 204 ∧
    statusWrites (handlers.DeleteUser r) = [204] ∧
    bodyOf (handlers.DeleteUser r) = "" := by
  refine ⟨rfl, rfl, rfl, rfl⟩

/-- C9: `ListUsers` and `GetUser` answer 200 with an envelope that has the key
`data`; for `ListUsers` the value of `meta.total` is the number of elements of
`data`, for `GetUser` the value of `data.id` is the path parameter `id`. -/
theorem ListUsers_GetUser_envelope (r : Request) :
    (statusOf (handlers.ListUsers r) = 200 ∧
      (∃ (payload meta : json.Value) (elems : List json.Value),
        handlers.ListUsers r = handlers.respondWithJSON 200 payload ∧
        payload.get "data" = some (json.Value.Arr elems) ∧
        payload.get "meta" = some meta ∧
        meta.get "total" = some (json.Value.Num elems.length)) ∧
      bodyOf (handlers.ListUsers r) =
        "\x7b\"data\":[" ++
        "\x7b\"id\":\"1\",\"email\":\"user1@example.com\",\"name\":\"User One\"," ++
        "\"created_at\":\"0001-01-01T00:00:00Z\",\"updated_at\":\"0001-01-01T00:00:00Z\"\x7d," ++
        "\x7b\"id\":\"2\",\"email\":\"user2@example.com\",\"name\":\"User Two\"," ++
        "\"created_at\":\"0001-01-01T00:00:00Z\",\"updated_at\":\"0001-01-01T00:00:00Z\"\x7d" ++
        "],\"meta\":\x7b\"total\":2\x7d\x7d") ∧
    (statusOf (handlers.GetUser r) = 200 ∧
      (∃ payload user : json.Value,
        handlers.GetUser r = handlers.respondWithJSON 200 payload ∧
        payload.get "data" = some user ∧
        user.get "id" = some (json.Value.Str (chi.URLParam r "id"))) ∧
      bodyOf (handlers.GetUser r) =
        "\x7b\"data\":\x7b\"id\":" ++
        String.mk (json.quote (chi.URLParam r "id")) ++
        ",\"email\":\"user@example.com\",\"name\":\"Example User\"," ++
        "\"created_at\":\"0001-01-01T00:00:00Z\",\"updated_at\":\"0001-01-01T00:00:00Z\"\x7d\x7d") := by
  refine ⟨⟨?_, ⟨_, _, _, rfl, rfl, rfl, rfl⟩, ?_⟩, ⟨?_, ⟨_, _, rfl, rfl, rfl⟩, ?_⟩⟩
  · exact respondWithJSON_status _ _
  · have : ∀ r₀ : Request, handlers.ListUsers r = handlers.ListUsers r₀ := fun _ => rfl
    rw [this (requestWith "" "" "" "")]
    decide
  · exact respondWithJSON_status _ _
  · rw [handlers.GetUser, respondWithJSON_body]
    apply String.ext
    simp [json.ofMap, json.insertEntry, json.encode, json.encodeFields, json.encodeMoreFields,
      models.User.toJSON, time.zero]
    rfl

/-- C10: for every path id and request body, `UpdateUser` answers 400 with an
error envelope exactly when the body fails to decode; otherwise it answers 200
with an envelope whose `data` has the path id and the decoded email and name,
empty or not. -/
theorem UpdateUser_status
    (Decode : String → Except String models.UpdateUserInput) (r : Request) :
    (statusOf (handlers.UpdateUser Decode r) = 400 ↔
      ∃ err, Decode r.Body = Except.error err) ∧
    (∀ err, Decode r.Body = Except.error err →
      ∃ message : String,
        handlers.UpdateUser Decode r = handlers.respondWithError 400 message ∧
        json.decodeObject (bodyOf (handlers.UpdateUser Decode r)) =
          some [("error", message)]) ∧
    (∀ input, Decode r.Body = Except.ok input →
      statusOf (handlers.UpdateUser Decode r) = 200 ∧
      ∃ payload user : json.Value,
        handlers.UpdateUser Decode r = handlers.respondWithJSON 200 payload ∧
        payload.get "data" = some user ∧
        user.get "id" = some (json.Value.Str (chi.URLParam r "id")) ∧
        user.get "email" = some (json.Value.Str input.Email) ∧
        user.get "name" = some (json.Value.Str input.Name)) := by
  have herr : ∀ err, Decode r.Body = Except.error err →
      handlers.UpdateUser Decode r =
        handlers.respondWithError 400 "Invalid request payload" := by
    intro err he
    simp [handlers.UpdateUser, he, http.StatusBadRequest]
  have hok : ∀ input, Decode r.Body = Except.ok input →
      handlers.UpdateUser Decode r = handlers.respondWithJSON 200
        (json.ofMap [("data", models.User.toJSON
          { ID := chi.URLParam r "id", Email := input.Email, Name := input.Name })]) := by
    intro input hi
    simp [handlers.UpdateUser, hi, http.StatusOK]
  refine ⟨⟨?_, ?_⟩, ?_, ?_⟩
  · intro hs
    cases hd : Decode r.Body with
    | error err => exact ⟨err, rfl⟩
    | ok input =>
      rw [hok input hd, respondWithJSON_status] at hs
      exact absurd hs (by decide)
  · rintro ⟨err, he⟩
    rw [herr err he]
    exact (respondWithError_envelope _ _).1
  · intro err he
    refine ⟨_, herr err he, ?_⟩
    rw [herr err he]
    exact (respondWithError_envelope _ _).2
  · intro input hi
    refine ⟨by rw [hok input hi, respondWithJSON_status], _, _, hok input hi, rfl, rfl, rfl, rfl⟩

/-- C10 at a body that is no JSON text and at a body with an empty name: 400
for the first, 200 for the second. -/
theorem UpdateUser_status_witness :
    statusOf (handlers.UpdateUser decodeUpdateUserInput
      (requestWith "PUT" "/api/v1/users/7" "not json" "7")) = 400 ∧
    statusOf (handlers.UpdateUser decodeUpdateUserInput
      (requestWith "PUT" "/api/v1/users/7" "\x7b\"email\":\"a@b.com\",\"name\":\"\"\x7d" "7"))
        = 200 :=
  ⟨(UpdateUser_status decodeUpdateUserInput
      (requestWith "PUT" "/api/v1/users/7" "not json" "7")).1.2 ⟨"invalid JSON", rfl⟩,
   ((UpdateUser_status decodeUpdateUserInput
      (requestWith "PUT" "/api/v1/users/7" "\x7b\"email\":\"a@b.com\",\"name\":\"\"\x7d" "7")).2.2
      { Email := "a@b.com", Name := "" } rfl).1⟩

/-! ## The two `respondWithError` -/

theorem escape_of_safe (s : List Char) (h : ∀ c ∈ s, json.htmlSafeSet c = true) :
    json.escape s = s := by
  induction s with
  | nil => rfl
  | cons c cs ih =>
    have hc : json.htmlSafeSet c = true := h c (List.mem_cons_self _ _)
    have hlt : c.toNat < 0x80 := by
      simp only [json.htmlSafeSet, decide_eq_true_eq] at hc
      exact hc.2.1
    have hcs : json.escape cs = cs := ih (fun d hd => h d (List.mem_cons_of_mem _ hd))
    simp [json.escape, json.appendChar, hc, hlt, hcs]

/-- For a message of characters that JSON writes as they are, the middleware
and the handlers write the same body. -/
theorem respondWithError_bodies_agree (code : Nat) (message : String)
    (h : ∀ c ∈ message.data, json.htmlSafeSet c = true) :
    bodyOf (middleware.respondWithError code message) =
      bodyOf (handlers.respondWithError code message) := by
  rw [handlers.respondWithError, respondWithJSON_body]
  apply String.ext
  simp [middleware.respondWithError, bodyOf, json.ofMap, json.insertEntry, json.encode,
    json.encodeFields, json.encodeMoreFields, json.quote, escape_of_safe _ h]
  rfl

/-- The three error responses of `Auth` carry the envelope of their message. -/
theorem Auth_error_bodies :
    json.decodeObject (bodyOf (middleware.respondWithError 401 "Missing authorization header")) =
      some [("error", "Missing authorization header")] ∧
    json.decodeObject
        (bodyOf (middleware.respondWithError 401 "Invalid authorization header format")) =
      some [("error", "Invalid authorization header format")] ∧
    json.decodeObject (bodyOf (middleware.respondWithError 401 "Invalid token")) =
      some [("error", "Invalid token")] := by
  refine ⟨?_, ?_, ?_⟩ <;> decide

/-- C8 (as stated, refuted): the statement does not hold for every message.
For the message `a"b` the handlers write `{"error":"a\"b"}`, which reads back
as the one member `"error": a"b`; the middleware writes `{"error":"a"b"}`,
which is no JSON text.  For the message `a","x":"y` the body of the middleware
is a JSON object with the two keys `error` and `x`. -/
theorem middleware_respondWithError_unescaped :
    bodyOf (handlers.respondWithError 401 "a\"b") = "\x7b\"error\":\"a\\\"b\"\x7d" ∧
    json.decodeObject (bodyOf (handlers.respondWithError 401 "a\"b")) =
      some [("error", "a\"b")] ∧
    bodyOf (middleware.respondWithError 401 "a\"b") = "\x7b\"error\":\"a\"b\"\x7d" ∧
    json.decodeObject (bodyOf (middleware.respondWithError 401 "a\"b")) = none ∧
    json.decodeObject (bodyOf (middleware.respondWithError 401 "a\",\"x\":\"y")) =
      some [("error", "a"), ("x", "y")] := by
  refine ⟨?_, ?_, ?_, ?_, ?_⟩ <;> decide

/-- C8 (amended): every client-facing error response of the service has a body
that is the JSON object with the one key `error` whose value is the message.
For every message the body of the handlers' `respondWithError` is that
envelope; for every message of characters that JSON writes as they are, the
body of the middleware's `respondWithError` is the body of the handlers', so
the same envelope; and every response with which `Auth` refuses a request,
for any secret and any request, is built from such a message. -/
theorem error_envelope_uniform :
    (∀ (code : Nat) (message : String),
      json.decodeObject (bodyOf (handlers.respondWithError code message)) =
        some [("error", message)]) ∧
    (∀ (code : Nat) (message : String),
      (∀ c ∈ message.data, json.htmlSafeSet c = true) →
        bodyOf (middleware.respondWithError code message) =
          bodyOf (handlers.respondWithError code message) ∧
        json.decodeObject (bodyOf (middleware.respondWithError code message)) =
          some [("error", message)]) ∧
    (∀ (jwtSecret : String) (r : Request),
      nextCalls (middleware.Auth jwtSecret r) = 0 →
        ∃ message : String,
          middleware.Auth jwtSecret r = middleware.respondWithError 401 message ∧
          bodyOf (middleware.Auth jwtSecret r) =
            bodyOf (handlers.respondWithError 401 message) ∧
          json.decodeObject (bodyOf (middleware.Auth jwtSecret r)) =
            some [("error", message)]) := by
  have ha : ∀ (code : Nat) (message : String),
      json.decodeObject (bodyOf (handlers.respondWithError code message)) =
        some [("error", message)] :=
    fun code message => (respondWithError_envelope code message).2
  have hb : ∀ (code : Nat) (message : String),
      (∀ c ∈ message.data, json.htmlSafeSet c = true) →
        bodyOf (middleware.respondWithError code message) =
          bodyOf (handlers.respondWithError code message) ∧
        json.decodeObject (bodyOf (middleware.respondWithError code message)) =
          some [("error", message)] := by
    intro code message h
    have e := respondWithError_bodies_agree code message h
    exact ⟨e, by rw [e]; exact ha code message⟩
  refine ⟨ha, hb, ?_⟩
  intro jwtSecret r hn
  rcases Auth_cases jwtSecret r with ⟨_, e⟩ | ⟨_, e⟩ | ⟨_, e⟩ | ⟨_, e⟩
  · have h := hb 401 "Missing authorization header" (by decide)
    exact ⟨_, e, by rw [e]; exact h.1, by rw [e]; exact h.2⟩
  · have h := hb 401 "Invalid token" (by decide)
    exact ⟨_, e, by rw [e]; exact h.1, by rw [e]; exact h.2⟩
  · rw [e] at hn
    simp [nextCalls] at hn
  · have h := hb 401 "Invalid authorization header format" (by decide)
    exact ⟨_, e, by rw [e]; exact h.1, by rw [e]; exact h.2⟩

/-- C8 (amended) at the message `Invalid token` and at a request without an
`Authorization` header: both bodies are `{"error":"Invalid token"}`, and the
refusal of the request reads back as `"error": Missing authorization header`. -/
theorem error_envelope_uniform_witness :
    bodyOf (middleware.respondWithError 401 "Invalid token") =
      "\x7b\"error\":\"Invalid token\"\x7d" ∧
    bodyOf (middleware.respondWithError 401 "Invalid token") =
      bodyOf (handlers.respondWithError 401 "Invalid token") ∧
    json.decodeObject (bodyOf (middleware.respondWithError 401 "Invalid token")) =
      some [("error", "Invalid token")] ∧
    ∃ message : String,
      middleware.Auth "secret" (requestWith "GET" "/api/v1/protected" "" "") =
        middleware.respondWithError 401 message ∧
      bodyOf (middleware.Auth "secret" (requestWith "GET" "/api/v1/protected" "" "")) =
        bodyOf (handlers.respondWithError 401 message) ∧
      json.decodeObject
          (bodyOf (middleware.Auth "secret" (requestWith "GET" "/api/v1/protected" "" ""))) =
        some [("error", message)] :=
  ⟨by decide,
   (error_envelope_uniform.2.1 401 "Invalid token" (by decide)).1,
   (error_envelope_uniform.2.1 401 "Invalid token" (by decide)).2,
   error_envelope_uniform.2.2 "secret" (requestWith "GET" "/api/v1/protected" "" "")
     (by decide)⟩

end Skeleton
